import Mathlib

/-!
Shallow embedding of the parameter-management and gain-smoothing logic of
src/source/PluginProcessor.cpp (class AudioPluginProcessor), together with
the JUCE library routines that this file invokes and whose behaviour it
therefore inherits: juce::NormalisableRange, the parameter path of
juce::AudioProcessorValueTreeState over juce::AudioParameterFloat,
juce::Decibels::decibelsToGain, and juce::dsp::Gain built on
juce::SmoothedValue with linear smoothing.

Floating-point values are modelled as exact rationals (and as reals at the
single place where a transcendental power appears); float rounding error is
outside the model, as is thread interleaving — operations are modelled as a
sequential trace, matching the atomicity granted by the atomics in the code.
-/

namespace Plugin

/-- A parameter declaration: one juce::AudioParameterFloat as built in
AudioPluginProcessor::createParameterLayout, carrying a
juce::NormalisableRange (fields start, end, interval, skew — here named
minValue, maxValue, interval, skew) and a default value. -/
structure ParamDef where
  id : String
  name : String
  minValue : ℚ
  maxValue : ℚ
  interval : ℚ
  skew : ℚ
  defaultValue : ℚ

/-- The gain parameter declared at PluginProcessor.cpp lines 30-40:
id "gain", name "Gain", range [-60, 12] dB, step 0.1, skew 1.0, default 0. -/
def gainParam : ParamDef := ⟨"gain", "Gain", -60, 12, 1/10, 1, 0⟩

/-- The layout built by AudioPluginProcessor::createParameterLayout:
exactly the one gain parameter. -/
def createParameterLayout : List ParamDef := [gainParam]

/-- NormalisableRange::clampTo0To1. -/
def clampTo0To1 (v : ℚ) : ℚ := max 0 (min 1 v)

/-- NormalisableRange::convertTo0to1 on the skew = 1 path: the proportion
(v - start) / (end - start) clamped to [0, 1].  The declared layout only
ever uses skew 1.0, so the skew exponent branch is never exercised by this
program and is not modelled. -/
def convertTo0to1 (r : ParamDef) (v : ℚ) : ℚ :=
  clampTo0To1 ((v - r.minValue) / (r.maxValue - r.minValue))

/-- NormalisableRange::convertFrom0to1 on the skew = 1 path: the proportion
is clamped to [0, 1] and mapped back onto [start, end]. -/
def convertFrom0to1 (r : ParamDef) (p : ℚ) : ℚ :=
  r.minValue + (r.maxValue - r.minValue) * clampTo0To1 p

/-- The denormalised parameter values held by the
AudioProcessorValueTreeState (apvts member, PluginProcessor.h line 63):
one (id, current value) entry per declared parameter.  This is the state
read through apvts.getRawParameterValue. -/
abbrev ParamState := List (String × ℚ)

/-- Lookup of a declared parameter by id, as done by the apvts parameter
map. -/
def findParam : List ParamDef → String → Option ParamDef
  | [], _ => none
  | p :: rest, i => if p.id = i then some p else findParam rest i

/-- Lookup of an entry by key in a serialized (id, value) list. -/
def lookupEntry : List (String × ℚ) → String → Option ℚ
  | [], _ => none
  | kv :: rest, i => if kv.1 = i then some kv.2 else lookupEntry rest i

/-- The parameter state right after construction (PluginProcessor.cpp
lines 14-17): every declared parameter sits at its default value. -/
def initState (l : List ParamDef) : ParamState :=
  l.map (fun p => (p.id, p.defaultValue))

/-- Raw store of a value into the atomic slot of parameter i. -/
def storedSet (st : ParamState) (i : String) (v : ℚ) : ParamState :=
  st.map (fun kv => if kv.1 = i then (kv.1, v) else kv)

/-- A control-path parameter write: the host or UI calls
setValueNotifyingHost (range.convertTo0to1 v) on the parameter with id i,
and AudioParameterFloat::setValue stores range.convertFrom0to1 of that
normalised value, which the apvts adapter publishes to the atomic read by
getRawParameterValue.  A write to an undeclared id has no declared target
and leaves the state unchanged. -/
def setParam (l : List ParamDef) (st : ParamState) (i : String) (v : ℚ) : ParamState :=
  match findParam l i with
  | none => st
  | some p => storedSet st i (convertFrom0to1 p (convertTo0to1 p v))

/-- apvts.getRawParameterValue(i) followed by an atomic load, as performed
for "gain" at PluginProcessor.cpp lines 17 and 165. -/
def getParam (st : ParamState) (i : String) : ℚ :=
  (lookupEntry st i).getD 0

/-- The self-describing document written by
AudioPluginProcessor::getStateInformation (lines 191-197): the XML created
from apvts.copyState(), a root element whose tag is the apvts type name
("Parameters", PluginProcessor.cpp line 14) holding one value per
parameter, then wrapped into an opaque binary blob by copyXmlToBinary. -/
structure StateBlob where
  tag : String
  entries : List (String × ℚ)

/-- AudioPluginProcessor::getStateInformation: serialize the full current
parameter state under the "Parameters" root tag. -/
def getStateInformation (st : ParamState) : StateBlob :=
  ⟨"Parameters", st⟩

/-- apvts.replaceState (juce::ValueTree::fromXml ...) at the level of the
denormalised parameter values: every declared parameter whose id appears in
the incoming tree is set (through the same normalise / denormalise pair as
a control-path write, hence clamped); entries of the tree with no declared
parameter have no adapter and are ignored; declared parameters missing from
the tree keep their current value. -/
def replaceState (l : List ParamDef) (st : ParamState)
    (entries : List (String × ℚ)) : ParamState :=
  st.map (fun kv =>
    match findParam l kv.1, lookupEntry entries kv.1 with
    | some p, some v => (kv.1, convertFrom0to1 p (convertTo0to1 p v))
    | _, _ => kv)

/-- AudioPluginProcessor::setStateInformation (lines 199-207): the blob is
parsed by getXmlFromBinary (none models a failed parse / malformed bytes);
if it parses and its root tag equals the apvts type "Parameters", the state
is replaced, otherwise nothing happens. -/
def setStateInformation (l : List ParamDef) (st : ParamState)
    (blob : Option StateBlob) : ParamState :=
  match blob with
  | none => st
  | some b => if b.tag = "Parameters" then replaceState l st b.entries else st

/-- One control-path operation on the parameter store: a set or a state
restoration. -/
inductive StoreOp where
  | set : String → ℚ → StoreOp
  | restore : Option StateBlob → StoreOp

/-- Apply one control-path operation. -/
def storeStep (l : List ParamDef) (st : ParamState) : StoreOp → ParamState
  | .set i v => setParam l st i v
  | .restore b => setStateInformation l st b

/-- The parameter state after a sequence of control-path operations starting
from construction. -/
def runStore (ops : List StoreOp) : ParamState :=
  ops.foldl (storeStep createParameterLayout) (initState createParameterLayout)

/-- The parameter state after a sequence of plain set calls starting from
construction. -/
def runSets (ops : List (String × ℚ)) : ParamState :=
  ops.foldl (fun st iv => setParam createParameterLayout st iv.1 iv.2)
    (initState createParameterLayout)

/-- The clamp of the specification text: clamp(v, lo, hi). -/
def specClamp (lo hi v : ℚ) : ℚ := max lo (min hi v)

/-- juce::Decibels defaultMinusInfinitydB, the default value of the
minusInfinityDb argument of decibelsToGain. -/
def defaultMinusInfinitydB : ℚ := -100

/-- juce::Decibels::decibelsToGain with its default minusInfinityDb
argument, exactly as called at PluginProcessor.cpp line 165:
returns 10 ^ (decibels * 0.05) when decibels > minusInfinityDb and 0
otherwise. -/
noncomputable def decibelsToGain (decibels : ℚ) : ℝ :=
  if defaultMinusInfinitydB < decibels
  then (10 : ℝ) ^ ((decibels : ℝ) * (1/20))
  else 0

/-- The state of juce::dsp::Gain (the gain member, PluginProcessor.h line
69) together with its juce::SmoothedValue with linear smoothing: current
value, target, linear step, countdown and stepsToTarget of the smoother,
plus sampleRate and rampDurationSeconds of the Gain wrapper.

rampStart is a ghost field with no influence on any transition: it records
the applied gain at the moment the active ramp was last started or
retargeted (the initialGain of the specification), so that the no-click
bound can be stated. -/
structure SmoothedGain where
  current : ℚ
  target : ℚ
  step : ℚ
  countdown : ℤ
  stepsToTarget : ℤ
  sampleRate : ℚ
  rampDurationSeconds : ℚ
  rampStart : ℚ

/-- A default-constructed juce::dsp::Gain: smoother at zero, no sample rate,
zero ramp duration. -/
def defaultSmoothedGain : SmoothedGain := ⟨0, 0, 0, 0, 0, 0, 0, 0⟩

/-- SmoothedValueBase::setCurrentAndTargetValue: jump current and target to
v and end any ramp. -/
def setCurrentAndTargetValue (s : SmoothedGain) (v : ℚ) : SmoothedGain :=
  { s with current := v, target := v, countdown := 0, rampStart := v }

/-- SmoothedValue::reset (int numSteps): record the ramp length and jump the
current value onto the target. -/
def resetSteps (s : SmoothedGain) (numSteps : ℤ) : SmoothedGain :=
  setCurrentAndTargetValue { s with stepsToTarget := numSteps } s.target

/-- dsp::Gain::reset: when a sample rate is known, reset the smoother with
SmoothedValue::reset (sampleRate, rampDurationSeconds), whose step count is
the floor of rampDurationSeconds * sampleRate. -/
def gainReset (s : SmoothedGain) : SmoothedGain :=
  if 0 < s.sampleRate then resetSteps s ⌊s.rampDurationSeconds * s.sampleRate⌋ else s

/-- dsp::Gain::prepare: store the sample rate of the ProcessSpec and
reset. -/
def gainPrepare (s : SmoothedGain) (sr : ℚ) : SmoothedGain :=
  gainReset { s with sampleRate := sr }

/-- dsp::Gain::setRampDurationSeconds: store and reset when the duration
actually changes (exact-arithmetic model of the equality early-out). -/
def setRampDurationSeconds (s : SmoothedGain) (d : ℚ) : SmoothedGain :=
  if s.rampDurationSeconds = d then s else gainReset { s with rampDurationSeconds := d }

/-- AudioPluginProcessor::prepareToPlay (lines 116-126): gain.prepare with
the host sample rate followed by gain.setRampDurationSeconds (0.05). -/
def prepareToPlay (s : SmoothedGain) (sampleRate : ℚ) : SmoothedGain :=
  setRampDurationSeconds (gainPrepare s sampleRate) (1/20)

/-- SmoothedValueBase::setTargetValue with linear smoothing, reached through
dsp::Gain::setGainLinear at PluginProcessor.cpp line 166: nothing on an
equal target; an immediate jump when stepsToTarget <= 0; otherwise a fresh
ramp of stepsToTarget samples from the current value (the ghost rampStart
records that starting value). -/
def setTargetValue (s : SmoothedGain) (v : ℚ) : SmoothedGain :=
  if v = s.target then s
  else if s.stepsToTarget ≤ 0 then setCurrentAndTargetValue s v
  else { s with target := v, countdown := s.stepsToTarget,
                step := (v - s.current) / (s.stepsToTarget : ℚ),
                rampStart := s.current }

/-- SmoothedValueBase::getNextValue: the applied per-sample gain and the
successor smoother state.  When not smoothing it returns the target; else
it decrements the countdown, adds the linear step while still smoothing,
and lands exactly on the target at the final step. -/
def getNextValue (s : SmoothedGain) : ℚ × SmoothedGain :=
  if s.countdown ≤ 0 then (s.target, s)
  else if 1 < s.countdown then
    (s.current + s.step,
     { s with countdown := s.countdown - 1, current := s.current + s.step })
  else
    (s.target, { s with countdown := 0, current := s.target })

/-- The smoother state after k calls of getNextValue. -/
def applyN (s : SmoothedGain) : ℕ → SmoothedGain
  | 0 => s
  | k + 1 => (getNextValue (applyN s k)).2

/-- The gain applied at sample index k (0-based) when processing from
state s. -/
def outputAt (s : SmoothedGain) (k : ℕ) : ℚ :=
  (getNextValue (applyN s k)).1

/-- The list of per-sample gains produced while processing len samples from
state s — dsp::Gain::process draws one getNextValue per sample index and
applies it to every channel. -/
def gainsOf (s : SmoothedGain) : ℕ → List ℚ
  | 0 => []
  | k + 1 => (getNextValue s).1 :: gainsOf (getNextValue s).2 k

/-- The loop at PluginProcessor.cpp lines 161-162: buffer.clear on every
channel index from totalNumInputChannels up, counting channels from
start. -/
def clearExtra (numIn : ℕ) : ℕ → List (List ℚ) → List (List ℚ)
  | _, [] => []
  | c, ch :: rest =>
      (if numIn ≤ c then ch.map (fun _ => (0 : ℚ)) else ch) ::
        clearExtra numIn (c + 1) rest

/-- buffer.getNumSamples(): all channels of a JUCE buffer share one
length. -/
def numSamples (buffer : List (List ℚ)) : ℕ := (buffer.headD []).length

/-- dsp::Gain::process on a replacing context: every channel sample at
index i is multiplied by the i-th smoothed gain. -/
def gainProcess (s : SmoothedGain) (buffer : List (List ℚ)) (len : ℕ) :
    List (List ℚ) × SmoothedGain :=
  (buffer.map (fun ch => List.zipWith (fun x g => x * g) ch (gainsOf s len)),
   applyN s len)

/-- AudioPluginProcessor::processBlock (lines 154-174): clear the output
channels beyond the input channel count, feed the freshly read parameter
value (already converted to linear gain — gainValue at line 165) to
gain.setGainLinear, then run gain.process over the whole buffer. -/
def processBlock (numIn : ℕ) (s : SmoothedGain) (gainValue : ℚ)
    (buffer : List (List ℚ)) : List (List ℚ) × SmoothedGain :=
  gainProcess (setTargetValue s gainValue) (clearExtra numIn 0 buffer)
    (numSamples buffer)

/-- One audio-side operation on the gain stage: a retarget (a control write
arriving through setGainLinear) or the processing of one sample. -/
inductive GainOp where
  | setTarget : ℚ → GainOp
  | next : GainOp

/-- Apply one audio-side operation. -/
def gainStep (s : SmoothedGain) : GainOp → SmoothedGain
  | .setTarget v => setTargetValue s v
  | .next => (getNextValue s).2

/-- The gain-stage state after prepareToPlay at the given sample rate
followed by any sequence of retargets and processed samples. -/
def runGain (sampleRate : ℚ) (ops : List GainOp) : SmoothedGain :=
  ops.foldl gainStep (prepareToPlay defaultSmoothedGain sampleRate)

/-- The reachable-state invariant of the linear smoother: the countdown is
a natural number bounded by the ramp length, an idle smoother sits exactly
on its target, and an active ramp of countdown remaining steps satisfies
the linear relation target = current + countdown * step with
step = (target - rampStart) / stepsToTarget. -/
def GainInv (s : SmoothedGain) : Prop :=
  0 ≤ s.countdown ∧
  s.countdown ≤ max s.stepsToTarget 0 ∧
  (s.countdown ≤ 0 → s.current = s.target) ∧
  (0 < s.countdown →
    s.step = (s.target - s.rampStart) / (s.stepsToTarget : ℚ) ∧
    s.target = s.current + (s.countdown : ℚ) * s.step ∧
    0 < s.stepsToTarget)

/-- The single-parameter store only ever holds the gain entry, inside its
declared range. -/
def GoodState (st : ParamState) : Prop :=
  ∃ v, st = [("gain", v)] ∧ -60 ≤ v ∧ v ≤ 12

theorem specClamp_lower (lo hi v : ℚ) : lo ≤ specClamp lo hi v := le_max_left _ _

theorem specClamp_upper (lo hi v : ℚ) (h : lo ≤ hi) : specClamp lo hi v ≤ hi :=
  max_le h (min_le_left _ _)

theorem specClamp_id (lo hi v : ℚ) (h1 : lo ≤ v) (h2 : v ≤ hi) :
    specClamp lo hi v = v := by
  unfold specClamp; rw [min_eq_right h2, max_eq_right h1]

/-- Normalising through the declared [-60, 12] skew-1 range and
denormalising back is exactly the clamp of the specification. -/
theorem convert_roundTrip_gain (v : ℚ) :
    convertFrom0to1 gainParam (convertTo0to1 gainParam v) = specClamp (-60) 12 v := by
  show (-60 : ℚ) + (12 - (-60)) *
      max 0 (min 1 (max 0 (min 1 ((v - (-60)) / (12 - (-60))))))
      = max (-60) (min 12 v)
  set x : ℚ := (v - (-60)) / (12 - (-60)) with hx
  have h72 : ((12 : ℚ) - (-60)) = 72 := by norm_num
  have hvx : v = 72 * x - 60 := by
    rw [hx]
    field_simp
    ring
  rw [h72, hvx]
  rcases le_total x 0 with h | h
  · have e1 : min 1 x = x := min_eq_right (h.trans zero_le_one)
    have e2 : max 0 x = 0 := max_eq_left h
    have e3 : min (12 : ℚ) (72 * x - 60) = 72 * x - 60 := min_eq_right (by linarith)
    have e4 : max (-60 : ℚ) (72 * x - 60) = -60 := max_eq_left (by linarith)
    rw [e1, e2, e3, e4]
    norm_num
  · rcases le_total x 1 with h2 | h2
    · have e1 : min 1 x = x := min_eq_right h2
      have e2 : max 0 x = x := max_eq_right h
      have e3 : min (12 : ℚ) (72 * x - 60) = 72 * x - 60 := min_eq_right (by linarith)
      have e4 : max (-60 : ℚ) (72 * x - 60) = 72 * x - 60 := max_eq_right (by linarith)
      rw [e1, e2, e1, e2, e3, e4]
      ring
    · have e1 : min 1 x = 1 := min_eq_left h2
      have e5 : max (0 : ℚ) 1 = 1 := max_eq_right zero_le_one
      have e6 : min (1 : ℚ) 1 = 1 := min_self 1
      have e3 : min (12 : ℚ) (72 * x - 60) = 12 := min_eq_left (by linarith)
      have e4 : max (-60 : ℚ) 12 = 12 := max_eq_right (by norm_num)
      rw [e1, e5, e6, e5, e3, e4]
      ring

theorem gainParam_id : gainParam.id = "gain" := rfl

theorem gainParam_min : gainParam.minValue = -60 := rfl

theorem gainParam_max : gainParam.maxValue = 12 := rfl

theorem findParam_gain : findParam createParameterLayout "gain" = some gainParam := by
  simp [findParam, createParameterLayout, gainParam_id]

theorem goodState_init : GoodState (initState createParameterLayout) :=
  ⟨0, rfl, by norm_num, by norm_num⟩

theorem goodState_setParam (st : ParamState) (h : GoodState st) (i : String) (v : ℚ) :
    GoodState (setParam createParameterLayout st i v) := by
  obtain ⟨w, hst, hw1, hw2⟩ := h
  subst hst
  unfold setParam
  by_cases hi : i = "gain"
  · subst hi
    rw [findParam_gain]
    refine ⟨convertFrom0to1 gainParam (convertTo0to1 gainParam v), ?_, ?_, ?_⟩
    · simp [storedSet]
    · rw [convert_roundTrip_gain]; exact specClamp_lower _ _ _
    · rw [convert_roundTrip_gain]; exact specClamp_upper _ _ _ (by norm_num)
  · have hf : findParam createParameterLayout i = none := by
      simp [findParam, createParameterLayout, gainParam_id]
      exact fun h2 => absurd h2.symm hi
    rw [hf]
    exact ⟨w, rfl, hw1, hw2⟩

theorem goodState_setState (st : ParamState) (h : GoodState st) (b : Option StateBlob) :
    GoodState (setStateInformation createParameterLayout st b) := by
  obtain ⟨w, hst, hw1, hw2⟩ := h
  subst hst
  cases b with
  | none => exact ⟨w, rfl, hw1, hw2⟩
  | some blob =>
    simp only [setStateInformation]
    by_cases ht : blob.tag = "Parameters"
    · rw [if_pos ht]
      unfold replaceState
      simp only [List.map_cons, List.map_nil]
      cases hl : lookupEntry blob.entries "gain" with
      | none =>
        refine ⟨w, ?_, hw1, hw2⟩
        simp [findParam_gain, hl]
      | some v =>
        refine ⟨convertFrom0to1 gainParam (convertTo0to1 gainParam v), ?_, ?_, ?_⟩
        · simp [findParam_gain, hl]
        · rw [convert_roundTrip_gain]; exact specClamp_lower _ _ _
        · rw [convert_roundTrip_gain]; exact specClamp_upper _ _ _ (by norm_num)
    · rw [if_neg ht]
      exact ⟨w, rfl, hw1, hw2⟩

theorem goodState_foldl (ops : List StoreOp) :
    ∀ st : ParamState, GoodState st →
      GoodState (ops.foldl (storeStep createParameterLayout) st) := by
  induction ops with
  | nil => intro st h; exact h
  | cons op rest ih =>
    intro st h
    simp only [List.foldl_cons]
    apply ih
    cases op with
    | set i v => exact goodState_setParam st h i v
    | restore b => exact goodState_setState st h b

theorem goodState_runStore (ops : List StoreOp) : GoodState (runStore ops) :=
  goodState_foldl ops _ goodState_init

theorem goodState_runSets (ops : List (String × ℚ)) : GoodState (runSets ops) := by
  unfold runSets
  have h : ∀ (ops : List (String × ℚ)) (st : ParamState), GoodState st →
      GoodState (ops.foldl
        (fun st iv => setParam createParameterLayout st iv.1 iv.2) st) := by
    intro ops
    induction ops with
    | nil => intro st h; exact h
    | cons iv rest ih =>
      intro st h
      simp only [List.foldl_cons]
      exact ih _ (goodState_setParam st h iv.1 iv.2)
  exact h ops _ goodState_init

theorem getParam_single (w : ℚ) : getParam [("gain", w)] "gain" = w := by
  simp [getParam, lookupEntry]

/-- C1: restoring the blob produced by getStateInformation after any prior
sequence of parameter sets leaves every parameter value unchanged. -/
theorem snapshot_restore_roundTrip (ops : List (String × ℚ)) :
    setStateInformation createParameterLayout (runSets ops)
      (some (getStateInformation (runSets ops))) = runSets ops := by
  obtain ⟨w, hst, hw1, hw2⟩ := goodState_runSets ops
  rw [hst]
  show (if ("Parameters" : String) = "Parameters"
    then replaceState createParameterLayout [("gain", w)] [("gain", w)]
    else [("gain", w)]) = [("gain", w)]
  rw [if_pos rfl]
  unfold replaceState
  simp only [List.map_cons, List.map_nil]
  have hl : lookupEntry [("gain", w)] "gain" = some w := by simp [lookupEntry]
  simp [findParam_gain, hl, convert_roundTrip_gain, specClamp_id _ _ _ hw1 hw2]

/-- C2: a set of value v on a declared parameter followed by a get returns
exactly clamp(v, min, max) of the declared range — for the gain parameter,
clamp(v, -60, 12) — with no further transformation. -/
theorem set_get_clamps (ops : List StoreOp) (p : ParamDef)
    (hp : p ∈ createParameterLayout) (v : ℚ) :
    getParam (setParam createParameterLayout (runStore ops) p.id v) p.id
      = specClamp p.minValue p.maxValue v := by
  have hpg : p = gainParam := by simpa [createParameterLayout] using hp
  subst hpg
  rw [gainParam_id, gainParam_min, gainParam_max]
  obtain ⟨w, hst, hw1, hw2⟩ := goodState_runStore ops
  rw [hst]
  have hsp : setParam createParameterLayout [("gain", w)] "gain" v
      = [("gain", convertFrom0to1 gainParam (convertTo0to1 gainParam v))] := by
    simp only [setParam, findParam_gain]
    simp [storedSet]
  rw [hsp, getParam_single, convert_roundTrip_gain]

/-- C6: restoring a well-tagged snapshot applies clamped values to every
declared parameter whose key is present (unknown keys in the snapshot are
simply ignored, since entries is arbitrary here), and leaves every declared
parameter whose key is missing at its pre-restore value. -/
theorem restore_presentAndMissing (ops : List StoreOp) (entries : List (String × ℚ))
    (p : ParamDef) (hp : p ∈ createParameterLayout) :
    (∀ v, lookupEntry entries p.id = some v →
        getParam (setStateInformation createParameterLayout (runStore ops)
            (some ⟨"Parameters", entries⟩)) p.id
          = specClamp p.minValue p.maxValue v) ∧
    (lookupEntry entries p.id = none →
        getParam (setStateInformation createParameterLayout (runStore ops)
            (some ⟨"Parameters", entries⟩)) p.id
          = getParam (runStore ops) p.id) := by
  have hpg : p = gainParam := by simpa [createParameterLayout] using hp
  subst hpg
  rw [gainParam_id, gainParam_min, gainParam_max]
  obtain ⟨w, hst, hw1, hw2⟩ := goodState_runStore ops
  rw [hst]
  have hred : setStateInformation createParameterLayout [("gain", w)]
      (some ⟨"Parameters", entries⟩)
      = replaceState createParameterLayout [("gain", w)] entries := by
    show (if ("Parameters" : String) = "Parameters"
      then replaceState createParameterLayout [("gain", w)] entries
      else [("gain", w)]) = _
    rw [if_pos rfl]
  rw [hred]
  unfold replaceState
  simp only [List.map_cons, List.map_nil]
  constructor
  · intro v hv
    simp only [findParam_gain, hv]
    rw [getParam_single, convert_roundTrip_gain]
  · intro hv
    simp only [findParam_gain, hv]

/-- C7: a restore whose blob fails to parse, or whose root tag is not the
schema identifier "Parameters", leaves the whole parameter state — hence
every parameter value — exactly as it was, and the function is total. -/
theorem restore_malformed (ops : List StoreOp) (tag : String)
    (entries : List (String × ℚ)) (h : tag ≠ "Parameters") :
    setStateInformation createParameterLayout (runStore ops) none = runStore ops ∧
    setStateInformation createParameterLayout (runStore ops)
        (some ⟨tag, entries⟩) = runStore ops := by
  refine ⟨rfl, ?_⟩
  show (if tag = "Parameters"
    then replaceState createParameterLayout (runStore ops) entries
    else runStore ops) = runStore ops
  rw [if_neg h]

/-- C9: after any sequence of control-path operations — sets with arbitrary
values and restores of arbitrary blobs — every declared parameter holds a
value inside its declared [min, max] range. -/
theorem value_in_range (ops : List StoreOp) (p : ParamDef)
    (hp : p ∈ createParameterLayout) :
    p.minValue ≤ getParam (runStore ops) p.id ∧
      getParam (runStore ops) p.id ≤ p.maxValue := by
  have hpg : p = gainParam := by simpa [createParameterLayout] using hp
  subst hpg
  rw [gainParam_id]
  obtain ⟨w, hst, hw1, hw2⟩ := goodState_runStore ops
  rw [hst, getParam_single]
  exact ⟨hw1, hw2⟩

theorem gainInv_setCurrentAndTargetValue (s : SmoothedGain) (v : ℚ) :
    GainInv (setCurrentAndTargetValue s v) := by
  unfold GainInv setCurrentAndTargetValue
  exact ⟨le_refl 0, le_max_right _ _, fun _ => rfl, fun h => absurd h (lt_irrefl 0)⟩

theorem gainInv_resetSteps (s : SmoothedGain) (n : ℤ) : GainInv (resetSteps s n) :=
  gainInv_setCurrentAndTargetValue _ _

theorem gainInv_gainReset (s : SmoothedGain) (h : GainInv s) : GainInv (gainReset s) := by
  unfold gainReset
  split
  · exact gainInv_resetSteps _ _
  · exact h

theorem gainInv_gainPrepare (s : SmoothedGain) (sr : ℚ) (h : GainInv s) :
    GainInv (gainPrepare s sr) :=
  gainInv_gainReset _ h

theorem gainInv_setRampDurationSeconds (s : SmoothedGain) (d : ℚ) (h : GainInv s) :
    GainInv (setRampDurationSeconds s d) := by
  unfold setRampDurationSeconds
  split
  · exact h
  · exact gainInv_gainReset _ h

theorem gainInv_prepareToPlay (s : SmoothedGain) (sr : ℚ) (h : GainInv s) :
    GainInv (prepareToPlay s sr) :=
  gainInv_setRampDurationSeconds _ _ (gainInv_gainPrepare _ _ h)

theorem gainInv_default : GainInv defaultSmoothedGain := by
  unfold GainInv defaultSmoothedGain
  exact ⟨le_refl 0, le_max_right _ _, fun _ => rfl, fun h => absurd h (lt_irrefl 0)⟩

theorem gainInv_setTargetValue (s : SmoothedGain) (v : ℚ) (h : GainInv s) :
    GainInv (setTargetValue s v) := by
  unfold setTargetValue
  split
  · exact h
  · split
    · exact gainInv_setCurrentAndTargetValue _ _
    · rename_i hne hpos
      rw [not_le] at hpos
      unfold GainInv
      refine ⟨hpos.le, le_max_left _ _, ?_, ?_⟩
      · intro hc
        exact absurd (lt_of_lt_of_le hpos hc) (lt_irrefl 0)
      · intro hc
        refine ⟨rfl, ?_, hpos⟩
        show v = s.current + (s.stepsToTarget : ℚ) * ((v - s.current) / (s.stepsToTarget : ℚ))
        have hz : (s.stepsToTarget : ℚ) ≠ 0 := Int.cast_ne_zero.mpr (ne_of_gt hpos)
        field_simp

theorem gainInv_getNextValue (s : SmoothedGain) (h : GainInv s) :
    GainInv (getNextValue s).2 := by
  obtain ⟨h0, hmax, hidle, hramp⟩ := h
  unfold getNextValue
  split
  · exact ⟨h0, hmax, hidle, hramp⟩
  · rename_i hc
    rw [not_le] at hc
    split
    · rename_i h1
      obtain ⟨hs, ht, hn⟩ := hramp hc
      unfold GainInv
      refine ⟨?_, ?_, ?_, ?_⟩
      · show 0 ≤ s.countdown - 1
        omega
      · show s.countdown - 1 ≤ max s.stepsToTarget 0
        exact le_trans (by omega) hmax
      · intro hle
        exact absurd (show s.countdown - 1 ≤ 0 from hle) (by omega)
      · intro hpos2
        refine ⟨hs, ?_, hn⟩
        show s.target = s.current + s.step + ((s.countdown - 1 : ℤ) : ℚ) * s.step
        rw [ht]
        push_cast
        ring
    · unfold GainInv
      exact ⟨le_refl 0, le_max_right _ _, fun _ => rfl, fun hp => absurd hp (lt_irrefl 0)⟩

theorem gainInv_gainStep (s : SmoothedGain) (op : GainOp) (h : GainInv s) :
    GainInv (gainStep s op) := by
  cases op with
  | setTarget v => exact gainInv_setTargetValue s v h
  | next => exact gainInv_getNextValue s h

theorem gainInv_foldl (ops : List GainOp) :
    ∀ s : SmoothedGain, GainInv s → GainInv (ops.foldl gainStep s) := by
  induction ops with
  | nil => intro s h; exact h
  | cons op rest ih =>
    intro s h
    simp only [List.foldl_cons]
    exact ih _ (gainInv_gainStep s op h)

theorem gainInv_runGain (sr : ℚ) (ops : List GainOp) : GainInv (runGain sr ops) :=
  gainInv_foldl ops _ (gainInv_prepareToPlay _ _ gainInv_default)

theorem getNextValue_target (s : SmoothedGain) : (getNextValue s).2.target = s.target := by
  unfold getNextValue
  split
  · rfl
  · split <;> rfl

theorem getNextValue_countdown (s : SmoothedGain) :
    (getNextValue s).2.countdown
      = if s.countdown ≤ 0 then s.countdown
        else if 1 < s.countdown then s.countdown - 1 else 0 := by
  unfold getNextValue
  split
  · rfl
  · split <;> rfl

theorem applyN_succ_left (s : SmoothedGain) (k : ℕ) :
    applyN s (k + 1) = applyN (getNextValue s).2 k := by
  induction k with
  | zero => rfl
  | succ k ih =>
    show (getNextValue (applyN s (k + 1))).2 = (getNextValue (applyN (getNextValue s).2 k)).2
    rw [ih]

theorem outputAt_succ (s : SmoothedGain) (k : ℕ) :
    outputAt s (k + 1) = outputAt (getNextValue s).2 k := by
  unfold outputAt
  rw [applyN_succ_left]

/-- Once the countdown is at most k + 1, the gain applied at sample index k
is exactly the target. -/
theorem settle (k : ℕ) :
    ∀ s : SmoothedGain, GainInv s → s.countdown ≤ (k : ℤ) + 1 →
      outputAt s k = s.target := by
  induction k with
  | zero =>
    intro s h hc
    unfold outputAt applyN getNextValue
    split
    · rfl
    · split
      · rename_i h1
        exact absurd h1 (by omega)
      · rfl
  | succ k ih =>
    intro s h hc
    rw [outputAt_succ]
    have hc2 : (getNextValue s).2.countdown ≤ (k : ℤ) + 1 := by
      rw [getNextValue_countdown]
      split
      · omega
      · split
        · omega
        · omega
    rw [ih _ (gainInv_getNextValue s h) hc2, getNextValue_target]

theorem setTargetValue_target (s : SmoothedGain) (v : ℚ) :
    (setTargetValue s v).target = v := by
  unfold setTargetValue
  split
  · rename_i he
    exact he.symm
  · split <;> rfl

/-- One processed sample changes the applied gain by at most the ramp slope
|target - rampStart| / stepsToTarget. -/
theorem gainStep_bound (s : SmoothedGain) (hinv : GainInv s) (h : 0 < s.stepsToTarget) :
    |(getNextValue s).1 - s.current|
      ≤ |s.target - s.rampStart| / (s.stepsToTarget : ℚ) := by
  obtain ⟨h0, hmax, hidle, hramp⟩ := hinv
  have hnQ : (0 : ℚ) < (s.stepsToTarget : ℚ) := by exact_mod_cast h
  unfold getNextValue
  split
  · rename_i hle
    show |s.target - s.current| ≤ _
    rw [hidle hle, sub_self, abs_zero]
    exact div_nonneg (abs_nonneg _) hnQ.le
  · rename_i hle
    rw [not_le] at hle
    obtain ⟨hstep, ht, hn⟩ := hramp hle
    split
    · show |s.current + s.step - s.current| ≤ _
      have he : s.current + s.step - s.current = s.step := by ring
      rw [he, hstep, abs_div, abs_of_pos hnQ]
    · rename_i h1
      have hc1 : s.countdown = 1 := by omega
      show |s.target - s.current| ≤ _
      have he : s.target - s.current = s.step := by
        rw [ht, hc1]
        push_cast
        ring
      rw [he, hstep, abs_div, abs_of_pos hnQ]

/-- C3: after a retarget to g from any state reachable by prepareToPlay and
any sequence of retargets and processed samples, every sample from index
rampDurationSamples - 1 onward (i.e. once at least stepsToTarget samples
have been processed) applies exactly the gain g, and keeps applying it. -/
theorem ramp_completion (sr : ℚ) (ops : List GainOp) (g : ℚ) (k : ℕ)
    (hk : (setTargetValue (runGain sr ops) g).stepsToTarget.toNat ≤ k + 1) :
    outputAt (setTargetValue (runGain sr ops) g) k = g := by
  set s1 := setTargetValue (runGain sr ops) g with hs1
  have hinv : GainInv s1 := gainInv_setTargetValue _ _ (gainInv_runGain sr ops)
  have hc : s1.countdown ≤ (k : ℤ) + 1 := by
    have h2 := hinv.2.1
    rw [← Int.toNat_eq_max] at h2
    omega
  rw [settle k s1 hinv hc, hs1, setTargetValue_target]

/-- C5: in any state reachable by prepareToPlay and any sequence of
retargets and processed samples, with a positive ramp length, the next
processed sample changes the applied gain by at most
|target - initialGain| / rampDurationSamples (initialGain being the applied
gain when the active ramp was last started, the ghost field rampStart), and
a retarget never jumps the currently applied gain. -/
theorem no_click_bound (sr : ℚ) (ops : List GainOp) (g : ℚ)
    (h : 0 < (runGain sr ops).stepsToTarget) :
    |(getNextValue (runGain sr ops)).1 - (runGain sr ops).current|
        ≤ |(runGain sr ops).target - (runGain sr ops).rampStart|
          / ((runGain sr ops).stepsToTarget : ℚ) ∧
      (setTargetValue (runGain sr ops) g).current = (runGain sr ops).current := by
  constructor
  · exact gainStep_bound _ (gainInv_runGain sr ops) h
  · unfold setTargetValue
    split
    · rfl
    · split
      · rename_i h2
        exact absurd h2 (not_le.mpr h)
      · rfl

theorem setTargetValue_steps (s : SmoothedGain) (v : ℚ) :
    (setTargetValue s v).stepsToTarget = s.stepsToTarget := by
  unfold setTargetValue
  split
  · rfl
  · split <;> rfl

theorem gainPrepare_pos (s : SmoothedGain) (sr : ℚ) (h : 0 < sr) :
    gainPrepare s sr
      = ⟨s.target, s.target, s.step, 0, ⌊s.rampDurationSeconds * sr⌋, sr,
         s.rampDurationSeconds, s.target⟩ := by
  unfold gainPrepare gainReset
  rw [if_pos (show (0 : ℚ) < ({ s with sampleRate := sr } : SmoothedGain).sampleRate from h)]
  rfl

/-- Full evaluation of prepareToPlay for a positive sample rate: the
smoother lands on its old target with a ramp of floor(0.05 * sampleRate)
samples, whether or not the 50 ms duration was already set. -/
theorem prepareToPlay_pos (s : SmoothedGain) (sr : ℚ) (h : 0 < sr) :
    prepareToPlay s sr
      = ⟨s.target, s.target, s.step, 0, ⌊(1/20 : ℚ) * sr⌋, sr, 1/20, s.target⟩ := by
  unfold prepareToPlay
  rw [gainPrepare_pos s sr h]
  set t : SmoothedGain := ⟨s.target, s.target, s.step, 0,
    ⌊s.rampDurationSeconds * sr⌋, sr, s.rampDurationSeconds, s.target⟩ with ht
  unfold setRampDurationSeconds
  by_cases hr : s.rampDurationSeconds = 1/20
  · rw [if_pos (show t.rampDurationSeconds = 1/20 from hr)]
    rw [ht, hr]
  · rw [if_neg (show ¬ t.rampDurationSeconds = 1/20 from hr)]
    unfold gainReset
    rw [if_pos (show (0 : ℚ) <
      ({ t with rampDurationSeconds := 1/20 } : SmoothedGain).sampleRate from h)]
    rw [ht]
    rfl

/-- C8 counterexample: the claim says the ramp length is
round(0.05 * sampleRate), but at sample rate 30 the code sets
floor(0.05 * 30) = 1 ramp samples while round(0.05 * 30) = 2. -/
theorem prepare_round_counterexample :
    (prepareToPlay defaultSmoothedGain 30).stepsToTarget ≠ round ((1/20 : ℚ) * 30) := by
  rw [prepareToPlay_pos defaultSmoothedGain 30 (by norm_num), round_eq]
  show (⌊(1/20 : ℚ) * 30⌋ : ℤ) ≠ ⌊(1/20 : ℚ) * 30 + 1/2⌋
  norm_num

/-- C8 (amended): for every positive sampleRate and from any state,
prepareToPlay sets the ramp length in samples to floor(0.05 * sampleRate)
— floor, not round — and resets the currently applied gain onto the last
known target, which it preserves. -/
theorem prepare_ramp_floor (s : SmoothedGain) (sr : ℚ) (h : 0 < sr) :
    (prepareToPlay s sr).stepsToTarget = ⌊(1/20 : ℚ) * sr⌋ ∧
    (prepareToPlay s sr).current = (prepareToPlay s sr).target ∧
    (prepareToPlay s sr).target = s.target := by
  rw [prepareToPlay_pos s sr h]
  exact ⟨rfl, rfl, rfl⟩

/-- C4 counterexample: the conversion at PluginProcessor.cpp line 165 uses
the JUCE default minus-infinity floor of -100 dB, so an input of exactly
-60 dB converts to 10 ^ (-3), which is strictly positive — not 0. -/
theorem decibel_floor_counterexample : decibelsToGain (-60) ≠ 0 := by
  unfold decibelsToGain defaultMinusInfinitydB
  rw [if_pos (by norm_num)]
  exact ne_of_gt (Real.rpow_pos_of_pos (by norm_num) _)

/-- C4 (amended): the decibel-to-linear conversion applied in processBlock
maps every value at or below the default floor of -100 dB to a linear gain
of exactly 0; the threshold is -100 dB, not -60 dB. -/
theorem decibel_floor_default (db : ℚ) (h : db ≤ defaultMinusInfinitydB) :
    decibelsToGain db = 0 := by
  unfold decibelsToGain
  rw [if_neg (not_lt.mpr h)]

theorem zipWith_zero_left (ch gs : List ℚ) :
    ∀ x ∈ List.zipWith (fun a g => a * g) (ch.map fun _ => (0 : ℚ)) gs, x = 0 := by
  induction ch generalizing gs with
  | nil =>
    intro x hx
    simp at hx
  | cons a t ih =>
    cases gs with
    | nil =>
      intro x hx
      simp at hx
    | cons g gt =>
      intro x hx
      simp only [List.map_cons, List.zipWith_cons_cons, List.mem_cons] at hx
      rcases hx with h | h
      · rw [h, zero_mul]
      · exact ih gt x h

theorem clearExtra_getD_cleared (numIn : ℕ) (buffer : List (List ℚ)) :
    ∀ start c : ℕ, numIn ≤ start + c →
      (clearExtra numIn start buffer).getD c []
        = (buffer.getD c []).map (fun _ => (0 : ℚ)) := by
  induction buffer with
  | nil =>
    intro start c h
    simp [clearExtra]
  | cons ch rest ih =>
    intro start c h
    cases c with
    | zero =>
      simp only [clearExtra, List.getD_cons_zero]
      rw [if_pos (by omega)]
    | succ c =>
      simp only [clearExtra, List.getD_cons_succ]
      exact ih (start + 1) c (by omega)

theorem clearExtra_getD_kept (numIn : ℕ) (buffer : List (List ℚ)) :
    ∀ start c : ℕ, start + c < numIn →
      (clearExtra numIn start buffer).getD c [] = buffer.getD c [] := by
  induction buffer with
  | nil =>
    intro start c h
    simp [clearExtra]
  | cons ch rest ih =>
    intro start c h
    cases c with
    | zero =>
      simp only [clearExtra, List.getD_cons_zero]
      rw [if_neg (by omega)]
    | succ c =>
      simp only [clearExtra, List.getD_cons_succ]
      exact ih (start + 1) c (by omega)

theorem getD_map_zipWith (l : List (List ℚ)) (gs : List ℚ) :
    ∀ c : ℕ, (l.map (fun ch => List.zipWith (fun x g => x * g) ch gs)).getD c []
      = List.zipWith (fun x g => x * g) (l.getD c []) gs := by
  induction l with
  | nil =>
    intro c
    simp
  | cons ch t ih =>
    intro c
    cases c with
    | zero => simp
    | succ c =>
      simp only [List.map_cons, List.getD_cons_succ]
      exact ih c

/-- C10: when processBlock runs with more output channels than input
channels, every output channel at an index at or beyond the input channel
count comes out all-zero, and every channel below the input channel count
holds its input samples multiplied sample-by-sample by the ramped gains. -/
theorem processBlock_channels (numIn : ℕ) (s : SmoothedGain) (gv : ℚ)
    (buffer : List (List ℚ)) (c : ℕ) :
    (numIn ≤ c → ∀ x ∈ (processBlock numIn s gv buffer).1.getD c [], x = 0) ∧
    (c < numIn → (processBlock numIn s gv buffer).1.getD c []
        = List.zipWith (fun x g => x * g) (buffer.getD c [])
            (gainsOf (setTargetValue s gv) (numSamples buffer))) := by
  constructor
  · intro h x hx
    simp only [processBlock, gainProcess] at hx
    rw [getD_map_zipWith, clearExtra_getD_cleared numIn buffer 0 c (by omega)] at hx
    exact zipWith_zero_left _ _ x hx
  · intro h
    simp only [processBlock, gainProcess]
    rw [getD_map_zipWith, clearExtra_getD_kept numIn buffer 0 c (by omega)]

/-- Witness: setting 100 on the gain parameter reads back as
clamp(100, -60, 12). -/
theorem set_get_clamps_witness :
    getParam (setParam createParameterLayout (runStore []) gainParam.id 100) gainParam.id
      = specClamp gainParam.minValue gainParam.maxValue 100 :=
  set_get_clamps [] gainParam (List.mem_singleton.mpr rfl) 100

/-- Witness: at 48000 Hz the ramp is 2400 samples and sample index 2399
already applies the new target exactly. -/
theorem ramp_completion_witness :
    outputAt (setTargetValue (runGain 48000 []) 2) 2399 = 2 :=
  ramp_completion 48000 [] 2 2399 (by
    rw [setTargetValue_steps]
    show (prepareToPlay defaultSmoothedGain 48000).stepsToTarget.toNat ≤ 2400
    rw [prepareToPlay_pos defaultSmoothedGain 48000 (by norm_num)]
    norm_num)

/-- Witness: -150 dB sits below the -100 dB floor and converts to 0. -/
theorem decibel_floor_default_witness : decibelsToGain (-150) = 0 :=
  decibel_floor_default (-150) (by norm_num [defaultMinusInfinitydB])

/-- Witness: the per-sample bound and the retarget continuity at 48000 Hz
right after preparation. -/
theorem no_click_bound_witness :
    |(getNextValue (runGain 48000 [])).1 - (runGain 48000 []).current|
        ≤ |(runGain 48000 []).target - (runGain 48000 []).rampStart|
          / ((runGain 48000 []).stepsToTarget : ℚ) ∧
      (setTargetValue (runGain 48000 []) 3).current = (runGain 48000 []).current :=
  no_click_bound 48000 [] 3 (by
    show 0 < (prepareToPlay defaultSmoothedGain 48000).stepsToTarget
    rw [prepareToPlay_pos defaultSmoothedGain 48000 (by norm_num)]
    norm_num)

/-- Witness: a snapshot carrying the gain key and an unknown key applies
the clamped gain value. -/
theorem restore_presentAndMissing_witness :
    getParam (setStateInformation createParameterLayout (runStore [])
        (some ⟨"Parameters", [("gain", 100), ("other", 5)]⟩)) gainParam.id
      = specClamp gainParam.minValue gainParam.maxValue 100 :=
  (restore_presentAndMissing [] [("gain", 100), ("other", 5)] gainParam
    (List.mem_singleton.mpr rfl)).1 100 (by
      show lookupEntry [("gain", 100), ("other", 5)] "gain" = some 100
      simp [lookupEntry])

/-- Witness: an unparsable blob and a wrongly tagged blob both leave the
freshly constructed state untouched. -/
theorem restore_malformed_witness :
    setStateInformation createParameterLayout (runStore []) none = runStore [] ∧
    setStateInformation createParameterLayout (runStore [])
        (some ⟨"NotParameters", []⟩) = runStore [] :=
  restore_malformed [] "NotParameters" [] (by decide)

/-- Witness: preparing at 48000 Hz from the default state. -/
theorem prepare_ramp_floor_witness :
    (prepareToPlay defaultSmoothedGain 48000).stepsToTarget = ⌊(1/20 : ℚ) * 48000⌋ ∧
    (prepareToPlay defaultSmoothedGain 48000).current
      = (prepareToPlay defaultSmoothedGain 48000).target ∧
    (prepareToPlay defaultSmoothedGain 48000).target = defaultSmoothedGain.target :=
  prepare_ramp_floor defaultSmoothedGain 48000 (by norm_num)

/-- Witness: the gain value stays in [-60, 12] after an out-of-range
set. -/
theorem value_in_range_witness :
    gainParam.minValue ≤ getParam (runStore [StoreOp.set "gain" 100]) gainParam.id ∧
      getParam (runStore [StoreOp.set "gain" 100]) gainParam.id ≤ gainParam.maxValue :=
  value_in_range [StoreOp.set "gain" 100] gainParam (List.mem_singleton.mpr rfl)

/-- Witness: with one input channel and two buffer channels, channel 1 is
cleared to zeros and channel 0 is the gain-scaled input. -/
theorem processBlock_channels_witness :
    (∀ x ∈ (processBlock 1 defaultSmoothedGain 2 [[1, 2], [5, 7]]).1.getD 1 [], x = 0) ∧
    (processBlock 1 defaultSmoothedGain 2 [[1, 2], [5, 7]]).1.getD 0 []
        = List.zipWith (fun x g => x * g) (([[1, 2], [5, 7]] : List (List ℚ)).getD 0 [])
            (gainsOf (setTargetValue defaultSmoothedGain 2) (numSamples [[1, 2], [5, 7]])) :=
  ⟨(processBlock_channels 1 defaultSmoothedGain 2 [[1, 2], [5, 7]] 1).1 (by norm_num),
   (processBlock_channels 1 defaultSmoothedGain 2 [[1, 2], [5, 7]] 0).2 (by norm_num)⟩

end Plugin
